/-
Verification of the box-office sheet updater (`main.py`) against its design
specification.

The development shallowly embeds the core of `main.py`:

* `_parse_money` / `_parse_int`   — field normalization (lines 87-112);
* `fetch_daily_table`             — per-date fetch with retry/backoff and
                                    table selection (lines 115-182);
* `date_range` / `scrape_year`    — the scrape window walk (lines 185-200);
* `get_max_date`                  — the watermark read (lines 62-70);
* `write_leaderboard`             — aggregation and ranking (lines 206-231);
* `runSync`                       — the `main()` driver (lines 234-287).

Modelling conventions:

* Calendar dates are integers (a day index); `dt.date` arithmetic
  (`+ timedelta(days=1)`, `min`, `max`, comparisons) maps directly.
* A spreadsheet cell read from the scraped HTML is an `Option String`;
  `none` stands for a pandas `NaN` (so `pd.isna` is `Option.isNone`, and
  `astype(str)` renders `none` as `"nan"`).
* Python `float(s)` string parsing is embedded as an exact rational parser
  `parsePyFloat` over the grammar Python accepts (sign, digit groups with
  single underscores, optional fraction and exponent).  Binary rounding of
  the resulting value is not modelled: for every input whose value is
  exactly representable (all inputs considered here) the model agrees with
  the code, and a magnitude at or above `2^1024` is mapped to `0` the way
  `int(float(s))` does via the `OverflowError` branch of the `except`.
* The ledger is the list of data rows (the header row is dropped), each a
  well-formed record as appended by this program; `time.sleep` calls are
  recorded in a trace instead of being performed.
-/
import Mathlib

set_option maxRecDepth 40000
set_option exponentiation.threshold 2000

namespace BoxOffice

/-! ## Python string primitives -/

/-- Python `str.strip()` on a list of characters: drop leading and trailing
whitespace. -/
def pyStrip (cs : List Char) : List Char :=
  ((cs.dropWhile Char.isWhitespace).reverse.dropWhile Char.isWhitespace).reverse

/-- `s.replace(c, "")` for a one-character pattern removes every occurrence
of that character. -/
def removeChar (c : Char) (cs : List Char) : List Char :=
  cs.filter (fun x => x ≠ c)

/-- A Python digit group: nonempty, begins and ends with a digit, and single
underscores may separate digits (the grammar `int()` and `float()` accept
between digits).  Auxiliary: scan after an initial digit. -/
def dgAux : List Char → Bool
  | [] => true
  | '_' :: c :: cs => c.isDigit && dgAux (c :: cs)
  | ['_'] => false
  | c :: cs => c.isDigit && dgAux cs

/-- Whether a character list is a valid Python digit group. -/
def digitGroupOk : List Char → Bool
  | [] => false
  | c :: cs => c.isDigit && dgAux cs

/-- Numeric value of the digits of a group (underscores ignored). -/
def digitsVal (cs : List Char) : ℕ :=
  (cs.filter (fun c => c ≠ '_')).foldl (fun n c => 10 * n + (c.toNat - 48)) 0

/-- Number of actual digits in a group (underscores ignored). -/
def digitsLen (cs : List Char) : ℕ :=
  (cs.filter (fun c => c ≠ '_')).length

/-- Strip one optional leading sign; return whether it was `-` and the rest. -/
def stripSign : List Char → Bool × List Char
  | '+' :: cs => (false, cs)
  | '-' :: cs => (true, cs)
  | cs => (false, cs)

/-- Parse a Python exponent tail (after the `e`/`E`): optional sign and a
digit group.  Returns the signed exponent. -/
def parseExp (cs : List Char) : Option ℤ :=
  let (neg, ds) := stripSign cs
  if digitGroupOk ds then
    some (if neg then -(digitsVal ds : ℤ) else (digitsVal ds : ℤ))
  else none

/-- Parse the mantissa `intpart[.fracpart]`: at least one digit overall, each
present part a valid digit group.  Returns the exact rational value
`intpart + fracpart / 10 ^ (number of fraction digits)`. -/
def parseMantissa (cs : List Char) : Option ℚ :=
  let ip := cs.takeWhile (fun c => c ≠ '.')
  let rest := cs.dropWhile (fun c => c ≠ '.')
  match rest with
  | [] =>
    if digitGroupOk ip then some (mkRat (digitsVal ip) 1) else none
  | _ :: fp =>
    if ip = [] then
      if digitGroupOk fp then some (mkRat (digitsVal fp) (10 ^ digitsLen fp))
      else none
    else if digitGroupOk ip && (fp = [] || digitGroupOk fp) then
      some (mkRat (digitsVal ip * 10 ^ digitsLen fp + digitsVal fp) (10 ^ digitsLen fp))
    else none

/-- Scale a rational by `10 ^ e` for a signed exponent `e`. -/
def ratScale (q : ℚ) (e : ℤ) : ℚ :=
  if 0 ≤ e then mkRat (q.num * 10 ^ e.toNat) q.den
  else mkRat q.num (q.den * 10 ^ (-e).toNat)

/-- Embedding of Python `float(s)` on a finite decimal literal: optional
sign, mantissa, optional `e`/`E` exponent.  Yields the exact rational value
denoted by the literal, `none` where `float()` raises `ValueError`. -/
def parsePyFloat (cs : List Char) : Option ℚ :=
  let (neg, body) := stripSign cs
  let mant := body.takeWhile (fun c => c ≠ 'e' && c ≠ 'E')
  let rest := body.dropWhile (fun c => c ≠ 'e' && c ≠ 'E')
  let withExp : Option ℚ :=
    match rest with
    | [] => parseMantissa mant
    | _ :: et =>
      match parseMantissa mant, parseExp et with
      | some m, some e => some (ratScale m e)
      | _, _ => none
  withExp.map (fun q => if neg then -q else q)

/-- Embedding of Python `int(s)` on a string: optional sign and a digit
group. -/
def parsePyInt (cs : List Char) : Option ℤ :=
  let (neg, ds) := stripSign cs
  if digitGroupOk ds then
    some (if neg then -(digitsVal ds : ℤ) else (digitsVal ds : ℤ))
  else none

/-- Python `int(q)` on a float value: truncation toward zero. -/
def truncRat (q : ℚ) : ℤ :=
  if q < 0 then -((-q).floor) else q.floor

/-- Whether a rational magnitude is at or beyond `2 ^ 1024`, the point where
conversion of a decimal literal to a Python float overflows to infinity
(making the subsequent `int()` raise `OverflowError`). -/
def floatOverflows (q : ℚ) : Bool :=
  2 ^ 1024 * q.den ≤ q.num.natAbs

/-! ## Normalizer (`_parse_money`, `_parse_int`, lines 87-112) -/

/-- `_parse_money` (lines 87-99): `NaN`, empty, `"-"`, `"N/A"` map to `0`;
otherwise `$` and `,` are removed and the result is `int(float(s))`, with
any failure (including the float overflowing to infinity) mapped to `0`. -/
def parseMoney : Option String → ℤ
  | none => 0
  | some s =>
    let t := pyStrip s.data
    if t = [] ∨ t = ['-'] ∨ t = ['N', '/', 'A'] then 0
    else
      let u := removeChar ',' (removeChar '$' t)
      match parsePyFloat u with
      | none => 0
      | some q => if floatOverflows q then 0 else truncRat q

/-- `_parse_int` (lines 102-112): `NaN`, empty, `"-"`, `"N/A"` map to the
empty-cell marker (here `none`); otherwise `,` is removed and `int(s)` is
attempted, failures again mapping to the marker. -/
def parseTheaters : Option String → Option ℤ
  | none => none
  | some s =>
    let t := pyStrip s.data
    if t = [] ∨ t = ['-'] ∨ t = ['N', '/', 'A'] then none
    else parsePyInt (removeChar ',' t)

/-! ## Records and raw tables -/

/-- A canonical ledger record (one title's revenue for one day), the row
shape `[date, title, revenue, theaters, distributor]` appended to the raw
tab.  `theaters = none` is the empty-cell marker `""` produced by
`_parse_int`; `distributor = none` is a `NaN` cell. -/
structure Record where
  date : ℤ
  title : String
  revenue : ℤ
  theaters : Option ℤ
  distributor : Option String
deriving DecidableEq, Repr

/-- One HTML table as `pd.read_html` returns it: a list of column labels and
rows of cells aligned with those labels. -/
structure RawTable where
  cols : List String
  rows : List (List (Option String))
deriving DecidableEq, Repr

/-- One HTTP response for one attempt: a status code and the list of tables
parsed out of the body (an unparseable body is the empty list, on which
`pd.read_html` raises). -/
structure Page where
  status : ℕ
  tables : List RawTable
deriving DecidableEq, Repr

/-- Python `str.strip().lower()` applied to a column label (`lower` on the
ASCII labels involved). -/
def normCol (s : String) : String :=
  String.mk ((pyStrip s.data).map Char.toLower)

/-- `astype(str)` on a cell: a `NaN` renders as `"nan"`. -/
def strOf : Option String → String
  | none => "nan"
  | some s => s

/-- Cell of a row under a (normalized) column label, `none` when the label
is absent or the row is short. -/
def cellAt (cols : List String) (row : List (Option String)) (c : String) :
    Option String :=
  match cols.findIdx? (fun x => x = c) with
  | some i => (row.get? i).getD none
  | none => none

/-- Lines 141-175: given the selected table and the date being fetched,
build the normalized records: the `release` cell becomes the trimmed title,
`daily` goes through `_parse_money`, `theaters` through `_parse_int` when
the column exists (else the empty marker), `distributor` is kept raw when
present (else `""`), and rows whose trimmed title is empty are dropped. -/
def processTable (d : ℤ) (t : RawTable) : List Record :=
  let cols := t.cols.map normCol
  let recs := t.rows.map (fun row =>
    { date := d
      title := String.mk (pyStrip (strOf (cellAt cols row "release")).data)
      revenue := parseMoney (cellAt cols row "daily")
      theaters :=
        if cols.contains "theaters" then parseTheaters (cellAt cols row "theaters")
        else none
      distributor :=
        if cols.contains "distributor" then cellAt cols row "distributor"
        else some "" : Record })
  recs.filter (fun r => r.title ≠ "")

/-- Whether a table's normalized column set contains both the `release` and
the `daily` concept (line 135). -/
def tableMatches (t : RawTable) : Bool :=
  (t.cols.map normCol).contains "release" && (t.cols.map normCol).contains "daily"

/-- One attempt of the body of the retry loop (lines 121-175): `none` when
the attempt raises (non-200 status, no tables, or no table with the
required `Release`/`Daily` columns), otherwise the normalized records. -/
def attemptFetch (p : Page) (d : ℤ) : Option (List Record) :=
  if p.status ≠ 200 then none
  else if p.tables.isEmpty then none
  else
    match p.tables.find? tableMatches with
    | some t => some (processTable d t)
    | none => none

/-! ## Fetcher retry loop (lines 115-182) -/

/-- The politeness delay slept after every successful fetch
(`REQUEST_SLEEP_SECONDS`, default `0.6`). -/
def requestSleep : ℚ := mkRat 6 10

/-- The backoff slept after the failed attempt numbered `k`
(line 180: `min(8, 0.7 * attempt)`). -/
def backoff (k : ℕ) : ℚ := min 8 (mkRat (7 * k) 10)

/-- Trace of one `fetch_daily_table` call: how many attempts ran, every
`time.sleep` performed in order, and the returned rows (`none` models the
final `raise RuntimeError`). -/
structure FetchTrace where
  attempts : ℕ
  sleeps : List ℚ
  result : Option (List Record)
deriving DecidableEq, Repr

/-- Run the retry loop over the given list of attempt numbers. -/
def fetchFrom (pages : ℕ → Page) (d : ℤ) : List ℕ → FetchTrace
  | [] => { attempts := 0, sleeps := [], result := none }
  | k :: ks =>
    match attemptFetch (pages k) d with
    | some rs => { attempts := 1, sleeps := [requestSleep], result := some rs }
    | none =>
      let tr := fetchFrom pages d ks
      { attempts := tr.attempts + 1, sleeps := backoff k :: tr.sleeps,
        result := tr.result }

/-- `fetch_daily_table` (lines 115-182): attempts numbered `1..maxRetries`;
`pages k` is the response the source returns to attempt `k`. -/
def fetch_daily_table (pages : ℕ → Page) (d : ℤ) (maxRetries : ℕ) : FetchTrace :=
  fetchFrom pages d (List.range' 1 maxRetries)

/-! ## Scrape window (lines 185-200) -/

/-- The generator loop of `date_range`, with the number of remaining days
made explicit: yield `a`, then continue from `a + 1`. -/
def dateRangeAux (a : ℤ) : ℕ → List ℤ
  | 0 => []
  | n + 1 => a :: dateRangeAux (a + 1) n

/-- `date_range(start, end)` (lines 185-189): the dates from `a` to `b`
inclusive. -/
def date_range (a b : ℤ) : List ℤ :=
  dateRangeAux a (b + 1 - a).toNat

/-- A data source: for each date, the page returned to each attempt. -/
def Source : Type := ℤ → ℕ → Page

/-- The rows a date's fetch yields under a source, `none` on retry
exhaustion. -/
def fetchRows (src : Source) (m : ℕ) (d : ℤ) : Option (List Record) :=
  (fetch_daily_table (src d) d m).result

/-- The rows of one day, defaulting to `[]` (used only under a hypothesis
that the fetch succeeded). -/
def dayRows (src : Source) (m : ℕ) (d : ℤ) : List Record :=
  (fetchRows src m d).getD []

/-- `scrape_year` (lines 192-200) over an explicit date list: visits dates
in order, stops at the first date whose fetch exhausts its retries.
Returns the visited dates and either the concatenated rows or an error. -/
def scrapeGo (src : Source) (m : ℕ) : List ℤ → List ℤ × Except Unit (List Record)
  | [] => ([], .ok [])
  | d :: ds =>
    match fetchRows src m d with
    | none => ([d], .error ())
    | some rs =>
      let (vs, r) := scrapeGo src m ds
      (d :: vs, r.map (fun tail => rs ++ tail))

/-- `scrape_year(start, end)`: scrape every date of the window. -/
def scrape_year (src : Source) (m : ℕ) (a b : ℤ) :
    List ℤ × Except Unit (List Record) :=
  scrapeGo src m (date_range a b)

/-! ## Watermark (lines 62-70) -/

/-- `get_max_date` (lines 62-70): `None` when the sheet has no data rows,
otherwise the date of the last data row (the sheet's dates are the
`YYYY-MM-DD` strings written by this program, so the parse succeeds). -/
def get_max_date (ledger : List Record) : Option ℤ :=
  (ledger.getLast?).map Record.date

/-! ## Aggregator (`write_leaderboard`, lines 206-231) -/

/-- Per-title totals as `groupby("title").sum()` produces them: one pair per
distinct title, carrying the sum of that title's revenues. -/
def titleTotals (rs : List (String × ℤ)) : List (String × ℤ) :=
  ((rs.map Prod.fst).dedup).map
    (fun t => (t, ((rs.filter (fun p => p.1 = t)).map Prod.snd).sum))

/-- The sort key of line 217: revenue descending, title ascending.  The
title comparison is Python's `<` on strings: lexicographic by code point,
embedded as the lexicographic order on the character lists. -/
def lbRel (a b : String × ℤ) : Prop :=
  b.2 < a.2 ∨ (a.2 = b.2 ∧ a.1.data ≤ b.1.data)

instance : DecidableRel lbRel := fun a b => by
  unfold lbRel; infer_instance

instance : IsTotal (String × ℤ) lbRel where
  total a b := by
    unfold lbRel
    rcases lt_trichotomy a.2 b.2 with h | h | h
    · exact .inr (.inl h)
    · rcases le_total a.1.data b.1.data with h' | h'
      · exact .inl (.inr ⟨h, h'⟩)
      · exact .inr (.inr ⟨h.symm, h'⟩)
    · exact .inl (.inl h)

instance : IsTrans (String × ℤ) lbRel where
  trans a b c hab hbc := by
    unfold lbRel at *
    rcases hab with h | ⟨he, ht⟩ <;> rcases hbc with h' | ⟨he', ht'⟩
    · exact .inl (h'.trans h)
    · exact .inl (he' ▸ h)
    · exact .inl (he ▸ h')
    · exact .inr ⟨he.trans he', ht.trans ht'⟩

/-- `totals` of lines 215-218: per-title sums sorted by
`(revenue desc, title asc)`.  The sort keys are pairwise distinct (one row
per title), so any comparison sort — pandas' quicksort as well as the
insertion sort used here — produces the same, unique sorted order. -/
def sortedTotals (rs : List (String × ℤ)) : List (String × ℤ) :=
  (titleTotals rs).insertionSort lbRel

/-- A published leaderboard row. -/
structure LBEntry where
  rank : ℕ
  title : String
  revenue : ℤ
deriving DecidableEq, Repr

/-- Lines 223-224: keep the top 50 totals and attach 1-based ranks. -/
def rankEntries (l : List (String × ℤ)) : List LBEntry :=
  l.enum.map (fun p => { rank := p.1 + 1, title := p.2.1, revenue := p.2.2 })

/-- The ranking the leaderboard publishes for a record set. -/
def leaderboardRanking (rs : List (String × ℤ)) : List LBEntry :=
  rankEntries ((sortedTotals rs).take 50)

/-- What `write_leaderboard` (lines 206-231) writes to the leaderboard tab
after clearing it: the no-data marker for an empty frame, otherwise the
winner (first total) and the ranked top-50 rows. -/
inductive Board where
  | noData : Board
  | board (winnerTitle : String) (winnerRevenue : ℤ) (entries : List LBEntry) : Board
deriving DecidableEq, Repr

/-- `write_leaderboard` on the title/revenue projection of a frame. -/
def write_leaderboard (rows : List Record) : Board :=
  let pairs := rows.map (fun r => (r.title, r.revenue))
  if rows.isEmpty then .noData
  else
    let st := sortedTotals pairs
    let w := st.headD ("", 0)
    .board w.1 w.2 (leaderboardRanking pairs)

/-! ## The driver (`main`, lines 234-287) -/

/-- The already-validated configuration `main` runs under (§6): the first
and last day of the target year, the rebuild flag and the retry maximum. -/
structure Config where
  yearStart : ℤ
  yearEnd : ℤ
  rebuild : Bool
  maxRetries : ℕ
deriving Repr

/-- The `start` of the scrape window (lines 253-257). -/
def startDate (cfg : Config) (ledger : List Record) : ℤ :=
  match (if cfg.rebuild then none else get_max_date ledger) with
  | some m => max (m + 1) cfg.yearStart
  | none => cfg.yearStart

/-- Everything observable about one synchronization run. -/
structure RunOutcome where
  fetched : List ℤ
  ledger : List Record
  appended : List Record
  published : Option Board
  errored : Bool
deriving DecidableEq, Repr

/-- `main` (lines 234-287): clear on rebuild, compute the scrape window
(`effective_end = min(year_end, today)`, `start` from the watermark),
return early when the window is empty, otherwise scrape it, append the
scraped rows, re-read the full raw tab and republish the leaderboard from
it.  A retry-exhausted date aborts the run before any append. -/
def runSync (cfg : Config) (src : Source) (today : ℤ)
    (ledger0 : List Record) : RunOutcome :=
  let ledger := if cfg.rebuild then [] else ledger0
  let effectiveEnd := min cfg.yearEnd today
  let start := startDate cfg ledger0
  if start > effectiveEnd then
    { fetched := [], ledger := ledger, appended := [], published := none,
      errored := false }
  else
    match scrape_year src cfg.maxRetries start effectiveEnd with
    | (visited, .error _) =>
      { fetched := visited, ledger := ledger, appended := [],
        published := none, errored := true }
    | (visited, .ok rows) =>
      let ledger' := ledger ++ rows
      let dfAll := if ledger'.isEmpty then rows else ledger'
      { fetched := visited, ledger := ledger', appended := rows,
        published := some (write_leaderboard dfAll), errored := false }

/-! ## Lemmas about the scrape window -/

theorem mem_dateRangeAux {a d : ℤ} {n : ℕ} :
    d ∈ dateRangeAux a n ↔ a ≤ d ∧ d < a + n := by
  induction n generalizing a with
  | zero => simp [dateRangeAux]
  | succ n ih =>
    simp only [dateRangeAux, List.mem_cons, ih]
    omega

theorem mem_date_range {a b d : ℤ} :
    d ∈ date_range a b ↔ a ≤ d ∧ d ≤ b := by
  rw [date_range, mem_dateRangeAux]
  omega

theorem dateRangeAux_pairwise (a : ℤ) (n : ℕ) :
    (dateRangeAux a n).Pairwise (· < ·) := by
  induction n generalizing a with
  | zero => simp [dateRangeAux]
  | succ n ih =>
    refine List.pairwise_cons.mpr ⟨fun d hd => ?_, ih (a + 1)⟩
    have := mem_dateRangeAux.mp hd
    omega

theorem date_range_pairwise (a b : ℤ) : (date_range a b).Pairwise (· < ·) :=
  dateRangeAux_pairwise a _

theorem date_range_eq_nil {a b : ℤ} (h : b < a) : date_range a b = [] := by
  rw [date_range]
  have : (b + 1 - a).toNat = 0 := by omega
  rw [this]
  rfl

theorem filter_dateRangeAux (w a : ℤ) (n : ℕ) :
    (dateRangeAux a n).filter (fun d => w < d) =
      dateRangeAux (max (w + 1) a) (n - (max (w + 1) a - a).toNat) := by
  induction n generalizing a with
  | zero => simp [dateRangeAux]
  | succ n ih =>
    by_cases h : w < a
    · have hmax : max (w + 1) a = a := by omega
      rw [hmax]
      simp only [Nat.sub_eq, show (a - a).toNat = 0 from by omega, Nat.sub_zero]
      rw [List.filter_eq_self.mpr]
      intro d hd
      have := mem_dateRangeAux.mp hd
      simp only [decide_eq_true_eq]
      omega
    · have hmax : max (w + 1) a = max (w + 1) (a + 1) := by omega
      have hstep : (dateRangeAux a (n + 1)).filter (fun d => w < d) =
          (dateRangeAux (a + 1) n).filter (fun d => w < d) := by
        simp only [dateRangeAux, List.filter_cons]
        simp only [decide_eq_true_eq]
        rw [if_neg h]
      rw [hstep, ih, hmax]
      congr 1
      omega

theorem filter_date_range (w a b : ℤ) :
    (date_range a b).filter (fun d => w < d) = date_range (max (w + 1) a) b := by
  rw [date_range, date_range, filter_dateRangeAux]
  congr 1
  omega

/-! ## Lemmas about the fetcher -/

theorem attemptFetch_some {p : Page} {d : ℤ} {rs : List Record}
    (h : attemptFetch p d = some rs) :
    ∃ t, p.tables.find? tableMatches = some t ∧ rs = processTable d t := by
  unfold attemptFetch at h
  split at h
  · exact absurd h (by simp)
  · split at h
    · exact absurd h (by simp)
    · split at h
      · exact ⟨_, by assumption, by injection h with h; exact h.symm⟩
      · exact absurd h (by simp)

theorem processTable_date {d : ℤ} {t : RawTable} {r : Record}
    (h : r ∈ processTable d t) : r.date = d := by
  unfold processTable at h
  have := List.mem_filter.mp h
  obtain ⟨row, _, hrow⟩ := List.mem_map.mp this.1
  rw [← hrow]

theorem fetchFrom_result_some {pages : ℕ → Page} {d : ℤ} {ks : List ℕ}
    {rs : List Record} (h : (fetchFrom pages d ks).result = some rs) :
    ∃ k ∈ ks, attemptFetch (pages k) d = some rs := by
  induction ks with
  | nil => simp [fetchFrom] at h
  | cons k ks ih =>
    unfold fetchFrom at h
    split at h
    · exact ⟨k, List.mem_cons_self k ks, by simp_all⟩
    · obtain ⟨k', hk', ha⟩ := ih h
      exact ⟨k', List.mem_cons_of_mem _ hk', ha⟩

/-- Every record a successful fetch returns carries the fetched date
(`df["date"] = date_str`, line 159). -/
theorem fetchRows_date {src : Source} {m : ℕ} {d : ℤ} {rs : List Record}
    (h : fetchRows src m d = some rs) : ∀ r ∈ rs, r.date = d := by
  intro r hr
  obtain ⟨k, _, ha⟩ := fetchFrom_result_some h
  obtain ⟨t, _, hrs⟩ := attemptFetch_some ha
  exact processTable_date (hrs ▸ hr)

theorem dayRows_date {src : Source} {m : ℕ} {d : ℤ} :
    ∀ r ∈ dayRows src m d, r.date = d := by
  intro r hr
  unfold dayRows at hr
  cases h : fetchRows src m d with
  | none => simp [h] at hr
  | some rs => exact fetchRows_date h r (by simpa [h] using hr)

/-- When every listed attempt fails, the loop makes all of them, sleeps the
backoff of each, and returns no rows. -/
theorem fetchFrom_all_fail {pages : ℕ → Page} {d : ℤ} {ks : List ℕ}
    (h : ∀ k ∈ ks, attemptFetch (pages k) d = none) :
    fetchFrom pages d ks =
      { attempts := ks.length, sleeps := ks.map backoff, result := none } := by
  induction ks with
  | nil => rfl
  | cons k ks ih =>
    unfold fetchFrom
    rw [h k (List.mem_cons_self k ks)]
    rw [ih (fun k' hk' => h k' (List.mem_cons_of_mem _ hk'))]
    simp [List.length_cons]

/-- The backoff schedule is non-decreasing in the attempt number. -/
theorem backoff_monotone {i j : ℕ} (h : i ≤ j) : backoff i ≤ backoff j := by
  unfold backoff
  apply min_le_min le_rfl
  rw [Rat.mkRat_eq_div, Rat.mkRat_eq_div]
  apply div_le_div_of_nonneg_right ?_ (by norm_num)
  · exact_mod_cast Nat.mul_le_mul_left 7 h

/-- The backoff schedule is bounded by the cap of 8 seconds. -/
theorem backoff_le_cap (k : ℕ) : backoff k ≤ 8 :=
  min_le_left _ _

/-! ## Lemmas about `scrape_year` -/

/-- When every date of the window fetches successfully, `scrape_year`
visits every date in order and returns the concatenation of the per-day
rows. -/
theorem scrapeGo_all_ok {src : Source} {m : ℕ} {ds : List ℤ}
    (h : ∀ d ∈ ds, fetchRows src m d ≠ none) :
    scrapeGo src m ds = (ds, .ok (ds.flatMap (dayRows src m))) := by
  induction ds with
  | nil => rfl
  | cons d ds ih =>
    have hd := h d (List.mem_cons_self d ds)
    unfold scrapeGo
    cases hres : fetchRows src m d with
    | none => exact absurd hres hd
    | some rs =>
      rw [ih (fun d' hd' => h d' (List.mem_cons_of_mem _ hd'))]
      simp [List.flatMap_cons, dayRows, hres, Except.map]

/-- If the scrape succeeded, every date of the window fetched
successfully. -/
theorem scrapeGo_ok_inv {src : Source} {m : ℕ} {ds : List ℤ}
    {vs : List ℤ} {rs : List Record}
    (h : scrapeGo src m ds = (vs, .ok rs)) :
    ∀ d ∈ ds, fetchRows src m d ≠ none := by
  induction ds generalizing vs rs with
  | nil => simp
  | cons d ds ih =>
    unfold scrapeGo at h
    cases hres : fetchRows src m d with
    | none => rw [hres] at h; exact absurd (congrArg Prod.snd h).symm (by simp)
    | some rs' =>
      rw [hres] at h
      intro d' hd'
      rcases List.mem_cons.mp hd' with rfl | hmem
      · simp [hres]
      · rcases hgo : scrapeGo src m ds with ⟨vs', r'⟩
        rw [hgo] at h
        cases r' with
        | error e => simp [Except.map] at h
        | ok tail => exact ih hgo d' hmem

/-- A date that exhausts its retries makes the whole scrape fail. -/
theorem scrapeGo_error_of_mem {src : Source} {m : ℕ} {ds : List ℤ} {d : ℤ}
    (hd : d ∈ ds) (hfail : fetchRows src m d = none) :
    (scrapeGo src m ds).2 = .error () := by
  induction ds with
  | nil => simp at hd
  | cons d' ds ih =>
    unfold scrapeGo
    cases hres : fetchRows src m d' with
    | none => rfl
    | some rs =>
      rcases List.mem_cons.mp hd with rfl | hmem
      · exact absurd hfail (by simp [hres])
      · rcases hgo : scrapeGo src m ds with ⟨vs', r'⟩
        have := ih hmem
        rw [hgo] at this
        simp only at this
        subst this
        simp [Except.map]

/-- The visited dates are always among the requested window. -/
theorem scrapeGo_visited_subset {src : Source} {m : ℕ} {ds : List ℤ} :
    ∀ d ∈ (scrapeGo src m ds).1, d ∈ ds := by
  induction ds with
  | nil => simp [scrapeGo]
  | cons d' ds ih =>
    unfold scrapeGo
    cases hres : fetchRows src m d' with
    | none => simp
    | some rs =>
      rcases hgo : scrapeGo src m ds with ⟨vs', r'⟩
      intro d hd
      simp only [List.mem_cons] at hd ⊢
      rcases hd with rfl | hd
      · exact .inl rfl
      · exact .inr (ih d (by rw [hgo]; exact hd))

/-! ## Lemmas about day-indexed concatenations -/

/-- A concatenation of per-day chunks over strictly increasing days is
sorted (non-strictly) by date. -/
theorem flatMap_pairwise_date {f : ℤ → List Record} {ds : List ℤ}
    (hsort : ds.Pairwise (· < ·))
    (hdate : ∀ d ∈ ds, ∀ r ∈ f d, r.date = d) :
    (ds.flatMap f).Pairwise (fun r r' => r.date ≤ r'.date) := by
  induction ds with
  | nil => simp
  | cons d ds ih =>
    rw [List.flatMap_cons, List.pairwise_append]
    have hcons := List.pairwise_cons.mp hsort
    refine ⟨?_, ih hcons.2 (fun d' hd' => hdate d' (List.mem_cons_of_mem _ hd')), ?_⟩
    · apply List.pairwise_of_forall_mem_list
      intro r hr r' hr'
      rw [hdate d (List.mem_cons_self d ds) r hr,
        hdate d (List.mem_cons_self d ds) r' hr']
    · intro r hr r' hr'
      obtain ⟨d', hd', hr'2⟩ := List.mem_flatMap.mp hr'
      rw [hdate d (List.mem_cons_self d ds) r hr,
        hdate d' (List.mem_cons_of_mem _ hd') r' hr'2]
      exact le_of_lt (hcons.1 d' hd')

/-- A conditional concatenation equals the concatenation over the filtered
index list. -/
theorem flatMap_ite_eq_filter_flatMap {f : ℤ → List Record} {p : ℤ → Bool}
    (ds : List ℤ) :
    (ds.flatMap fun d => if p d then f d else []) = (ds.filter p).flatMap f := by
  induction ds with
  | nil => rfl
  | cons d ds ih =>
    rw [List.flatMap_cons, List.filter_cons]
    by_cases h : p d
    · rw [if_pos h, if_pos h, List.flatMap_cons, ih]
    · rw [if_neg h, if_neg h, ih]
      simp

/-- The date of the last record of a day-indexed concatenation is the
largest day that contributed any record: all later days are empty. -/
theorem flatMap_getLast_date {f : ℤ → List Record} {ds : List ℤ} {r : Record}
    (hsort : ds.Pairwise (· < ·))
    (hdate : ∀ d ∈ ds, ∀ r' ∈ f d, r'.date = d)
    (hlast : (ds.flatMap f).getLast? = some r) :
    r.date ∈ ds ∧ ∀ d ∈ ds, r.date < d → f d = [] := by
  induction ds with
  | nil => simp [List.flatMap_nil] at hlast
  | cons d ds ih =>
    rw [List.flatMap_cons, List.getLast?_append] at hlast
    have hcons := List.pairwise_cons.mp hsort
    cases htail : (ds.flatMap f).getLast? with
    | some r' =>
      rw [htail] at hlast
      simp only [Option.or_some] at hlast
      injection hlast with hlast
      subst hlast
      obtain ⟨hmem, hrest⟩ :=
        ih hcons.2 (fun d' hd' => hdate d' (List.mem_cons_of_mem _ hd')) htail
      refine ⟨List.mem_cons_of_mem _ hmem, ?_⟩
      intro d' hd' hlt
      rcases List.mem_cons.mp hd' with rfl | hmem'
      · exact absurd (hcons.1 _ hmem) (by omega)
      · exact hrest d' hmem' hlt
    | none =>
      rw [htail] at hlast
      simp only [Option.none_or] at hlast
      have hempty : ∀ d' ∈ ds, f d' = [] := by
        intro d' hd'
        have := List.getLast?_eq_none_iff.mp htail
        exact List.flatMap_eq_nil_iff.mp this d' hd'
      have hrd : r.date = d := by
        have hrf : r ∈ f d := List.mem_of_mem_getLast? hlast
        exact hdate d (List.mem_cons_self d ds) r hrf
      refine ⟨by rw [hrd]; exact List.mem_cons_self d ds, ?_⟩
      intro d' hd' _
      rcases List.mem_cons.mp hd' with rfl | hmem'
      · exact absurd hrd.symm (by omega)
      · exact hempty d' hmem'

/-! ## Case analysis of `runSync` -/

theorem runSync_early {cfg : Config} {src : Source} {today : ℤ}
    {ledger0 : List Record}
    (h : startDate cfg ledger0 > min cfg.yearEnd today) :
    runSync cfg src today ledger0 =
      { fetched := [], ledger := if cfg.rebuild then [] else ledger0,
        appended := [], published := none, errored := false } := by
  unfold runSync
  rw [if_pos h]

theorem runSync_ok {cfg : Config} {src : Source} {today : ℤ}
    {ledger0 : List Record}
    (hle : ¬ startDate cfg ledger0 > min cfg.yearEnd today)
    (hok : ∀ d ∈ date_range (startDate cfg ledger0) (min cfg.yearEnd today),
      fetchRows src cfg.maxRetries d ≠ none) :
    runSync cfg src today ledger0 =
      { fetched := date_range (startDate cfg ledger0) (min cfg.yearEnd today),
        ledger := (if cfg.rebuild then [] else ledger0) ++
          (date_range (startDate cfg ledger0) (min cfg.yearEnd today)).flatMap
            (dayRows src cfg.maxRetries),
        appended := (date_range (startDate cfg ledger0)
          (min cfg.yearEnd today)).flatMap (dayRows src cfg.maxRetries),
        published := some (write_leaderboard
          ((if cfg.rebuild then [] else ledger0) ++
            (date_range (startDate cfg ledger0) (min cfg.yearEnd today)).flatMap
              (dayRows src cfg.maxRetries))),
        errored := false } := by
  unfold runSync
  rw [if_neg hle]
  rw [show scrape_year src cfg.maxRetries (startDate cfg ledger0)
      (min cfg.yearEnd today) =
      (date_range (startDate cfg ledger0) (min cfg.yearEnd today),
        .ok ((date_range (startDate cfg ledger0) (min cfg.yearEnd today)).flatMap
          (dayRows src cfg.maxRetries))) from scrapeGo_all_ok hok]
  simp only
  congr 1
  by_cases hemp :
      ((if cfg.rebuild then [] else ledger0) ++
        (date_range (startDate cfg ledger0) (min cfg.yearEnd today)).flatMap
          (dayRows src cfg.maxRetries)).isEmpty
  · rw [if_pos hemp]
    rw [List.isEmpty_iff, List.append_eq_nil] at hemp
    rw [hemp.1, hemp.2]
    simp
  · rw [if_neg hemp]

theorem runSync_error {cfg : Config} {src : Source} {today : ℤ}
    {ledger0 : List Record} {d : ℤ}
    (hd : d ∈ date_range (startDate cfg ledger0) (min cfg.yearEnd today))
    (hfail : fetchRows src cfg.maxRetries d = none) :
    runSync cfg src today ledger0 =
      { fetched := (scrape_year src cfg.maxRetries (startDate cfg ledger0)
          (min cfg.yearEnd today)).1,
        ledger := if cfg.rebuild then [] else ledger0,
        appended := [], published := none, errored := true } := by
  have hle : ¬ startDate cfg ledger0 > min cfg.yearEnd today := by
    have := mem_date_range.mp hd
    omega
  unfold runSync
  rw [if_neg hle]
  have herr := scrapeGo_error_of_mem hd hfail
  rcases hgo : scrape_year src cfg.maxRetries (startDate cfg ledger0)
      (min cfg.yearEnd today) with ⟨vs, r⟩
  unfold scrape_year at hgo
  rw [hgo] at herr
  simp only at herr
  subst herr
  simp [scrape_year, hgo]

/-! ## Lemmas about the aggregator -/

/-- The distinct-title keys of the per-title totals. -/
theorem titleTotals_map_fst (rs : List (String × ℤ)) :
    (titleTotals rs).map Prod.fst = (rs.map Prod.fst).dedup := by
  unfold titleTotals
  rw [List.map_map]
  have : ∀ l : List String, l.map (Prod.fst ∘ fun t =>
      (t, ((rs.filter (fun p => p.1 = t)).map Prod.snd).sum)) = l.map id := by
    intro l
    apply List.map_congr_left
    intro t _
    rfl
  rw [this, List.map_id]

theorem sortedTotals_perm (rs : List (String × ℤ)) :
    (sortedTotals rs).Perm (titleTotals rs) :=
  List.perm_insertionSort lbRel (titleTotals rs)

theorem sortedTotals_nodup_fst (rs : List (String × ℤ)) :
    ((sortedTotals rs).map Prod.fst).Nodup := by
  refine ((sortedTotals_perm rs).map Prod.fst).nodup_iff.mpr ?_
  rw [titleTotals_map_fst]
  exact List.nodup_dedup _

theorem sortedTotals_sorted (rs : List (String × ℤ)) :
    (sortedTotals rs).Pairwise lbRel :=
  List.sorted_insertionSort lbRel (titleTotals rs)

/-- The sort order of line 217 is strict on the totals list: revenue
descending, with the title tie-break resolving every tie between the
pairwise-distinct titles. -/
theorem sortedTotals_strict (rs : List (String × ℤ)) :
    (sortedTotals rs).Pairwise
      (fun a b => b.2 < a.2 ∨ (a.2 = b.2 ∧ a.1.data < b.1.data)) := by
  have hne : (sortedTotals rs).Pairwise (fun a b => a.1 ≠ b.1) :=
    List.pairwise_map.mp (sortedTotals_nodup_fst rs)
  refine ((sortedTotals_sorted rs).and hne).imp ?_
  rintro a b ⟨hrel, hne'⟩
  rcases hrel with h | ⟨heq, hle⟩
  · exact .inl h
  · exact .inr ⟨heq, lt_of_le_of_ne hle (fun hdata => hne' (String.ext hdata))⟩

/-- Membership in the totals list determines the summed revenue. -/
theorem mem_titleTotals {rs : List (String × ℤ)} {p : String × ℤ}
    (h : p ∈ titleTotals rs) :
    p.2 = ((rs.filter (fun q => q.1 = p.1)).map Prod.snd).sum := by
  unfold titleTotals at h
  obtain ⟨t, _, hp⟩ := List.mem_map.mp h
  rw [← hp]

theorem mem_enumFrom_snd {α : Type} {q : ℕ × α} {n : ℕ} {l : List α}
    (h : q ∈ l.enumFrom n) : q.2 ∈ l := by
  induction l generalizing n with
  | nil => simp [List.enumFrom] at h
  | cons a l ih =>
    rw [List.enumFrom_cons] at h
    rcases List.mem_cons.mp h with rfl | h
    · exact List.mem_cons_self _ _
    · exact List.mem_cons_of_mem _ (ih h)

theorem pairwise_enumFrom {α : Type} {R : α → α → Prop} {l : List α}
    (h : l.Pairwise R) (n : ℕ) :
    (l.enumFrom n).Pairwise (fun a b => R a.2 b.2) := by
  induction l generalizing n with
  | nil => simp [List.enumFrom]
  | cons a l ih =>
    rw [List.enumFrom_cons]
    have hc := List.pairwise_cons.mp h
    exact List.pairwise_cons.mpr
      ⟨fun b hb => hc.1 _ (mem_enumFrom_snd hb), ih hc.2 (n + 1)⟩

/-- The ranks attached by lines 223-224 are `1, 2, ..., length`. -/
theorem rankEntries_ranks (l : List (String × ℤ)) :
    (rankEntries l).map LBEntry.rank = List.range' 1 (rankEntries l).length := by
  unfold rankEntries
  rw [List.map_map, List.length_map, List.enum_length]
  have h1 : (LBEntry.rank ∘ fun p : ℕ × (String × ℤ) =>
      ({ rank := p.1 + 1, title := p.2.1, revenue := p.2.2 } : LBEntry)) =
      (fun n => n + 1) ∘ Prod.fst := rfl
  rw [h1, ← List.map_map, List.enum_map_fst, List.range'_eq_map_range]
  apply List.map_congr_left
  intro i _
  omega

/-- Every run takes exactly one of three paths: the empty-window early
return, an abort on retry exhaustion, or a full scrape-append-publish. -/
theorem runSync_trichotomy (cfg : Config) (src : Source) (today : ℤ)
    (ledger0 : List Record) :
    (startDate cfg ledger0 > min cfg.yearEnd today ∧
      runSync cfg src today ledger0 =
        { fetched := [], ledger := if cfg.rebuild then [] else ledger0,
          appended := [], published := none, errored := false })
    ∨ (runSync cfg src today ledger0 =
        { fetched := (scrape_year src cfg.maxRetries (startDate cfg ledger0)
            (min cfg.yearEnd today)).1,
          ledger := if cfg.rebuild then [] else ledger0,
          appended := [], published := none, errored := true })
    ∨ (¬ startDate cfg ledger0 > min cfg.yearEnd today ∧
       (∀ d ∈ date_range (startDate cfg ledger0) (min cfg.yearEnd today),
         fetchRows src cfg.maxRetries d ≠ none) ∧
       runSync cfg src today ledger0 =
        { fetched := date_range (startDate cfg ledger0) (min cfg.yearEnd today),
          ledger := (if cfg.rebuild then [] else ledger0) ++
            (date_range (startDate cfg ledger0) (min cfg.yearEnd today)).flatMap
              (dayRows src cfg.maxRetries),
          appended := (date_range (startDate cfg ledger0)
            (min cfg.yearEnd today)).flatMap (dayRows src cfg.maxRetries),
          published := some (write_leaderboard
            ((if cfg.rebuild then [] else ledger0) ++
              (date_range (startDate cfg ledger0) (min cfg.yearEnd today)).flatMap
                (dayRows src cfg.maxRetries))),
          errored := false }) := by
  by_cases h : startDate cfg ledger0 > min cfg.yearEnd today
  · exact .inl ⟨h, runSync_early h⟩
  · rcases hgo : scrape_year src cfg.maxRetries (startDate cfg ledger0)
        (min cfg.yearEnd today) with ⟨vs, r⟩
    cases r with
    | error e =>
      refine .inr (.inl ?_)
      unfold runSync
      rw [if_neg h]
      rw [show (scrape_year src cfg.maxRetries (startDate cfg ledger0)
        (min cfg.yearEnd today)) = (vs, .error e) from hgo]
    | ok rows =>
      have hok : ∀ d ∈ date_range (startDate cfg ledger0) (min cfg.yearEnd today),
          fetchRows src cfg.maxRetries d ≠ none := scrapeGo_ok_inv hgo
      exact .inr (.inr ⟨h, hok, runSync_ok h hok⟩)

/-! ## The differencing property -/

/-- Modelled from the spec: the Differencer contract of §4.4 — all
candidates are new when the watermark is `none`, otherwise exactly those
strictly newer than the watermark. -/
def watermarkFilter : Option ℤ → List Record → List Record
  | none, rs => rs
  | some wd, rs => rs.filter (fun r => wd < r.date)

/-- The candidate record set of a run: everything the source produces over
a date window. -/
def candidates (src : Source) (m : ℕ) (a b : ℤ) : List Record :=
  (date_range a b).flatMap (dayRows src m)

theorem candidates_filter (src : Source) (m : ℕ) (w a b : ℤ) :
    (candidates src m a b).filter (fun r => w < r.date) =
      candidates src m (max (w + 1) a) b := by
  unfold candidates
  rw [List.filter_flatMap]
  have hchunk : ∀ d ∈ date_range a b,
      (dayRows src m d).filter (fun r => decide (w < r.date)) =
        if decide (w < d) then dayRows src m d else [] := by
    intro d _
    by_cases hwd : w < d
    · rw [if_pos (by simpa using hwd)]
      apply List.filter_eq_self.mpr
      intro r hr
      simpa [dayRows_date r hr] using hwd
    · rw [if_neg (by simpa using hwd)]
      apply List.filter_eq_nil_iff.mpr
      intro r hr
      simpa [dayRows_date r hr] using hwd
  have h1 : ((date_range a b).flatMap
      fun d => (dayRows src m d).filter (fun r => decide (w < r.date))) =
      ((date_range a b).flatMap
        fun d => if decide (w < d) then dayRows src m d else []) :=
    List.flatMap_congr hchunk
  have h2 : ((date_range a b).flatMap
      fun d => if decide (w < d) then dayRows src m d else []) =
      ((date_range a b).filter (fun d => decide (w < d))).flatMap
        (dayRows src m) :=
    flatMap_ite_eq_filter_flatMap _
  rw [h1, h2, filter_date_range]

/-! ## Concrete test fixtures

Small concrete sources, configurations and records used to instantiate the
claims: a well-formed one-day source whose rows arrive in the order
`B`, `A`; a source whose pages never contain the required
`Release`/`Daily` table; a source that always answers HTTP 500; and a
source reporting a negative daily revenue string. -/

def tblBA : RawTable :=
  { cols := ["Release", "Daily"],
    rows := [[some "B", some "$5"], [some "A", some "$3"]] }

def srcBA : Source := fun _ _ => { status := 200, tables := [tblBA] }

def srcNoCol : Source := fun _ _ =>
  { status := 200, tables := [{ cols := ["Foo"], rows := [[some "x"]] }] }

def srcHTTPFail : Source := fun _ _ => { status := 500, tables := [] }

def tblNeg : RawTable :=
  { cols := ["Release", "Daily"], rows := [[some "X", some "-5"]] }

def srcNeg : Source := fun _ _ => { status := 200, tables := [tblNeg] }

def rB : Record :=
  { date := 0, title := "B", revenue := 5, theaters := none, distributor := some "" }

def rA : Record :=
  { date := 0, title := "A", revenue := 3, theaters := none, distributor := some "" }

def rX : Record :=
  { date := 5, title := "X", revenue := 7, theaters := none, distributor := some "" }

/-- A one-day year window (`yearStart = yearEnd = 0`), no rebuild, one
attempt. -/
def cfgOneDay : Config :=
  { yearStart := 0, yearEnd := 0, rebuild := false, maxRetries := 1 }

/-- A one-day window with the default `MAX_RETRIES = 4`. -/
def cfgRetry : Config :=
  { yearStart := 0, yearEnd := 0, rebuild := false, maxRetries := 4 }

/-- A six-day year window (`yearStart = 0`, `yearEnd = 5`). -/
def cfgSixDays : Config :=
  { yearStart := 0, yearEnd := 5, rebuild := false, maxRetries := 1 }

/-! ## C3 — Normalizer defaulting -/

/-- C3, counterexample: the claim says input revenue `"$1,234.50"` maps to
`1234.5`; the code computes `int(float(s))`, which truncates the cents away
and returns the integer `1234`. -/
theorem claim_C3_counterexample :
    parseMoney (some "$1,234.50") = 1234 ∧
      ((parseMoney (some "$1,234.50") : ℚ) ≠ (1234.5 : ℚ)) := by
  have h : parseMoney (some "$1,234.50") = 1234 := by decide
  refine ⟨h, ?_⟩
  rw [h]
  norm_num

/-- C3 (amended): revenue `"$1,234.50"` normalizes to the truncated integer
`1234` (not `1234.5`); revenue `"-"`, `"N/A"` and the empty string
normalize to `0`; theaters `"1,500"` normalizes to `1500`; theaters `"-"`
normalizes to the explicit absent marker, which is distinct from `0`. -/
theorem claim_C3_amended :
    parseMoney (some "$1,234.50") = 1234 ∧
    parseMoney (some "-") = 0 ∧
    parseMoney (some "N/A") = 0 ∧
    parseMoney (some "") = 0 ∧
    parseTheaters (some "1,500") = some 1500 ∧
    parseTheaters (some "-") = none ∧
    parseTheaters (some "-") ≠ some 0 := by
  refine ⟨by decide, by decide, by decide, by decide, by decide, by decide, by decide⟩

/-! ## C6 — revenue invariant -/

/-- C6, counterexample: a parseable negative revenue string is persisted as
a negative revenue, so persisted revenue is not always non-negative.  A
one-day run over a source reporting `"-5"` appends and re-publishes a
record with revenue `-5 < 0`. -/
theorem claim_C6_counterexample :
    (runSync cfgOneDay srcNeg 0 []).ledger =
      [{ date := 0, title := "X", revenue := -5, theaters := none,
         distributor := some "" }] ∧
    ((-5 : ℤ) < 0) := by
  exact ⟨by decide, by decide⟩

/-- C6 (amended): revenue is always a well-defined integer (never
null/NaN/Infinity), and a missing cell or a string whose cleaned form does
not parse as a number normalizes to `0`; but the code does not reject a
negative sign, so a parseable negative input yields a negative revenue. -/
theorem claim_C6_amended :
    parseMoney none = 0 ∧
    ∀ s : String,
      parsePyFloat (removeChar ',' (removeChar '$' (pyStrip s.data))) = none →
      parseMoney (some s) = 0 := by
  refine ⟨rfl, fun s h => ?_⟩
  simp only [parseMoney]
  split
  · rfl
  · rw [h]

/-- Witness for C6 (amended) at the unparseable input `"abc"`. -/
theorem claim_C6_amended_witness :
    parsePyFloat (removeChar ',' (removeChar '$' (pyStrip "abc".data))) = none ∧
    parseMoney (some "abc") = 0 :=
  ⟨by decide, claim_C6_amended.2 "abc" (by decide)⟩

/-! ## C5 — retry policy -/

/-- C5: a fetch whose every attempt fails raises the permanent failure
after exactly `maxRetries` attempts, and the backoff delays it sleeps are
non-decreasing in attempt number and bounded by the 8-second cap. -/
theorem claim_C5 (pages : ℕ → Page) (d : ℤ) (m : ℕ)
    (hfail : ∀ k, 1 ≤ k → k ≤ m → attemptFetch (pages k) d = none) :
    (fetch_daily_table pages d m).result = none ∧
    (fetch_daily_table pages d m).attempts = m ∧
    (fetch_daily_table pages d m).sleeps.Pairwise (· ≤ ·) ∧
    ∀ s ∈ (fetch_daily_table pages d m).sleeps, s ≤ 8 := by
  have hall : ∀ k ∈ List.range' 1 m, attemptFetch (pages k) d = none := by
    intro k hk
    obtain ⟨i, hi, rfl⟩ := List.mem_range'.mp hk
    exact hfail _ (by omega) (by omega)
  unfold fetch_daily_table
  rw [fetchFrom_all_fail hall]
  refine ⟨rfl, List.length_range' 1 1 m, ?_, ?_⟩
  · refine List.pairwise_map.mpr ?_
    exact (List.pairwise_lt_range' 1 m).imp (fun h => backoff_monotone (le_of_lt h))
  · intro s hs
    obtain ⟨k, _, rfl⟩ := List.mem_map.mp hs
    exact backoff_le_cap k

/-- Witness for C5: a date on which every attempt gets HTTP 500, with the
default four retries. -/
theorem claim_C5_witness :
    (fetch_daily_table (srcHTTPFail 0) 0 4).result = none ∧
    (fetch_daily_table (srcHTTPFail 0) 0 4).attempts = 4 ∧
    (fetch_daily_table (srcHTTPFail 0) 0 4).sleeps.Pairwise (· ≤ ·) :=
  have h := claim_C5 (srcHTTPFail 0) 0 4 (fun _ _ _ => rfl)
  ⟨h.1, h.2.1, h.2.2.1⟩

/-! ## C8 — missing required column -/

/-- C8, counterexample: when the required `Release`/`Daily` table is absent
from every response, the condition is *retried* like any transient parse
failure — the fetch makes all four default attempts instead of failing
fatally on the first. -/
theorem claim_C8_counterexample :
    (fetch_daily_table (srcNoCol 0) 0 4).result = none ∧
    (fetch_daily_table (srcNoCol 0) 0 4).attempts = 4 ∧
    (fetch_daily_table (srcNoCol 0) 0 4).attempts ≠ 1 := by
  refine ⟨by decide, by decide, by decide⟩

/-- C8 (amended): a source schema with no table containing both the
release/title and daily-revenue concepts is treated as a transient parse
failure: the fetch retries it up to the configured maximum, and only after
exhaustion does the run abort — with no row appended and nothing
published. -/
theorem claim_C8_amended (cfg : Config) (src : Source) (today : ℤ)
    (ledger0 : List Record) (d : ℤ)
    (hrb : cfg.rebuild = false)
    (hd : d ∈ date_range (startDate cfg ledger0) (min cfg.yearEnd today))
    (hmiss : ∀ k, 1 ≤ k → k ≤ cfg.maxRetries →
      (src d k).tables.find? tableMatches = none) :
    (fetch_daily_table (src d) d cfg.maxRetries).attempts = cfg.maxRetries ∧
    (runSync cfg src today ledger0).errored = true ∧
    (runSync cfg src today ledger0).ledger = ledger0 ∧
    (runSync cfg src today ledger0).appended = [] ∧
    (runSync cfg src today ledger0).published = none := by
  have hall : ∀ k, 1 ≤ k → k ≤ cfg.maxRetries →
      attemptFetch (src d k) d = none := by
    intro k h1 h2
    unfold attemptFetch
    split
    · rfl
    · split
      · rfl
      · rw [hmiss k h1 h2]
  have htr := claim_C5 (src d) d cfg.maxRetries hall
  have hfail : fetchRows src cfg.maxRetries d = none := htr.1
  have hrun := runSync_error hd hfail
  rw [hrun]
  simp [hrb, htr.2.1]

/-- Witness for C8 (amended): the one-day window with a source whose only
table lacks the required columns, at the default four retries. -/
theorem claim_C8_amended_witness :
    cfgRetry.rebuild = false ∧
    (0 : ℤ) ∈ date_range (startDate cfgRetry []) (min cfgRetry.yearEnd 0) ∧
    (fetch_daily_table (srcNoCol 0) 0 cfgRetry.maxRetries).attempts =
      cfgRetry.maxRetries ∧
    (runSync cfgRetry srcNoCol 0 []).errored = true ∧
    (runSync cfgRetry srcNoCol 0 []).ledger = [] ∧
    (runSync cfgRetry srcNoCol 0 []).appended = [] ∧
    (runSync cfgRetry srcNoCol 0 []).published = none := by
  have h := claim_C8_amended cfgRetry srcNoCol 0 [] 0 rfl (by decide)
    (fun _ _ _ => rfl)
  exact ⟨rfl, by decide, h.1, h.2.1, h.2.2.1, h.2.2.2.1, h.2.2.2.2⟩

/-! ## C4 — aggregator determinism -/

/-- C4: the published ranking is deterministic and total — ranks are the
contiguous 1-based sequence, entries are strictly ordered by revenue
descending with the ascending case-sensitive title tie-break, no title
appears twice (so no rank is shared), and each entry's revenue is the sum
of its title's record revenues. -/
theorem claim_C4 (rs : List (String × ℤ)) :
    (leaderboardRanking rs).map LBEntry.rank =
      List.range' 1 (leaderboardRanking rs).length ∧
    (leaderboardRanking rs).Pairwise
      (fun a b => b.revenue < a.revenue ∨
        (a.revenue = b.revenue ∧ a.title.data < b.title.data)) ∧
    ((leaderboardRanking rs).map LBEntry.title).Nodup ∧
    ∀ e ∈ leaderboardRanking rs,
      e.revenue = ((rs.filter (fun p => p.1 = e.title)).map Prod.snd).sum := by
  refine ⟨rankEntries_ranks _, ?_, ?_, ?_⟩
  · unfold leaderboardRanking rankEntries
    refine List.pairwise_map.mpr ?_
    have hstrict := (sortedTotals_strict rs).sublist (List.take_sublist 50 _)
    exact pairwise_enumFrom hstrict 0
  · unfold leaderboardRanking rankEntries
    rw [List.map_map]
    have h1 : (LBEntry.title ∘ fun p : ℕ × (String × ℤ) =>
        ({ rank := p.1 + 1, title := p.2.1, revenue := p.2.2 } : LBEntry)) =
        Prod.fst ∘ Prod.snd := rfl
    rw [h1, ← List.map_map, List.enum_map_snd]
    exact (sortedTotals_nodup_fst _).sublist
      ((List.take_sublist 50 _).map Prod.fst)
  · intro e he
    unfold leaderboardRanking rankEntries at he
    obtain ⟨q, hq, rfl⟩ := List.mem_map.mp he
    have hmem : q.2 ∈ (sortedTotals (rs)).take 50 := mem_enumFrom_snd hq
    have hmem' : q.2 ∈ titleTotals rs :=
      (sortedTotals_perm rs).mem_iff.mp (List.mem_of_mem_take hmem)
    exact mem_titleTotals hmem'

/-- Witness for C4: the spec's own aggregation example,
`[("Movie A", 100), ("Movie B", 100), ("Movie A", 50)]`. -/
theorem claim_C4_witness :
    (leaderboardRanking [("Movie A", 100), ("Movie B", 100), ("Movie A", 50)]).map
      LBEntry.rank =
      List.range' 1 (leaderboardRanking
        [("Movie A", 100), ("Movie B", 100), ("Movie A", 50)]).length ∧
    ((leaderboardRanking [("Movie A", 100), ("Movie B", 100), ("Movie A", 50)]).map
      LBEntry.title).Nodup :=
  have h := claim_C4 [("Movie A", 100), ("Movie B", 100), ("Movie A", 50)]
  ⟨h.1, h.2.2.1⟩

/-! ## C1 — differencer correctness -/

theorem startDate_ge (cfg : Config) (ledger0 : List Record) :
    cfg.yearStart ≤ startDate cfg ledger0 := by
  unfold startDate
  split
  · omega
  · omega

theorem startDate_none {cfg : Config} {ledger0 : List Record}
    (hrb : cfg.rebuild = false) (h : get_max_date ledger0 = none) :
    startDate cfg ledger0 = cfg.yearStart := by
  unfold startDate
  rw [hrb]
  simp only [Bool.false_eq_true, if_false, h]

theorem startDate_some {cfg : Config} {ledger0 : List Record} {w : ℤ}
    (hrb : cfg.rebuild = false) (h : get_max_date ledger0 = some w) :
    startDate cfg ledger0 = max (w + 1) cfg.yearStart := by
  unfold startDate
  rw [hrb]
  simp only [Bool.false_eq_true, if_false, h]

/-- C1 (amended): over any source for which every day of the year window
fetches successfully, the records appended by a run are exactly the
candidates whose date is strictly greater than the watermark (all of them
when the watermark is `none`), and they are handed to the append path in
ascending *date* order.  (Within one date the source row order is kept, so
the list need not be sorted by `(date, title)` — see the
counterexample.) -/
theorem claim_C1 (cfg : Config) (src : Source) (today : ℤ)
    (ledger0 : List Record)
    (hrb : cfg.rebuild = false)
    (hok : ∀ d ∈ date_range cfg.yearStart (min cfg.yearEnd today),
      fetchRows src cfg.maxRetries d ≠ none) :
    (runSync cfg src today ledger0).appended =
      watermarkFilter (get_max_date ledger0)
        (candidates src cfg.maxRetries cfg.yearStart (min cfg.yearEnd today)) ∧
    (runSync cfg src today ledger0).appended.Pairwise
      (fun r r' => r.date ≤ r'.date) := by
  have hys : cfg.yearStart ≤ startDate cfg ledger0 := startDate_ge cfg ledger0
  have hsub : ∀ d ∈ date_range (startDate cfg ledger0) (min cfg.yearEnd today),
      fetchRows src cfg.maxRetries d ≠ none := by
    intro d hd
    have hb := mem_date_range.mp hd
    exact hok d (mem_date_range.mpr ⟨by omega, hb.2⟩)
  by_cases h : startDate cfg ledger0 > min cfg.yearEnd today
  · rw [runSync_early h]
    refine ⟨?_, by simp⟩
    cases hw : get_max_date ledger0 with
    | none =>
      have hst := startDate_none hrb hw
      simp only [watermarkFilter]
      unfold candidates
      rw [date_range_eq_nil (by omega)]
      rfl
    | some w =>
      have hst := startDate_some hrb hw
      simp only [watermarkFilter]
      rw [candidates_filter,
        show max (w + 1) cfg.yearStart = startDate cfg ledger0 from hst.symm]
      unfold candidates
      rw [date_range_eq_nil (by omega)]
      rfl
  · rw [runSync_ok h hsub]
    simp only
    constructor
    · cases hw : get_max_date ledger0 with
      | none =>
        have hst := startDate_none hrb hw
        simp only [watermarkFilter]
        unfold candidates
        rw [hst]
      | some w =>
        have hst := startDate_some hrb hw
        simp only [watermarkFilter]
        rw [candidates_filter,
          show max (w + 1) cfg.yearStart = startDate cfg ledger0 from hst.symm]
        rfl
    · exact flatMap_pairwise_date (date_range_pairwise _ _)
        (fun d _ => dayRows_date)

/-- Witness for C1 at the one-day window with the concrete two-row
source. -/
theorem claim_C1_witness :
    cfgOneDay.rebuild = false ∧
    (runSync cfgOneDay srcBA 0 []).appended =
      watermarkFilter (get_max_date [])
        (candidates srcBA cfgOneDay.maxRetries cfgOneDay.yearStart
          (min cfgOneDay.yearEnd 0)) := by
  have hok : ∀ d ∈ date_range cfgOneDay.yearStart (min cfgOneDay.yearEnd 0),
      fetchRows srcBA cfgOneDay.maxRetries d ≠ none := by
    intro d hd
    have hb := mem_date_range.mp hd
    have hys : cfgOneDay.yearStart = 0 := rfl
    have hye : cfgOneDay.yearEnd = 0 := rfl
    rw [hys, hye] at hb
    have hd0 : d = 0 := by omega
    rw [hd0]
    decide
  exact ⟨rfl, (claim_C1 cfgOneDay srcBA 0 [] rfl hok).1⟩

/-- C1, counterexample: one day whose source rows arrive titled `B` then
`A`; the appended list keeps that order, so it is not sorted ascending by
`(date, title)`. -/
theorem claim_C1_counterexample :
    (runSync cfgOneDay srcBA 0 []).appended = [rB, rA] ∧
    ¬ (runSync cfgOneDay srcBA 0 []).appended.Pairwise
        (fun r r' => r.date < r'.date ∨
          (r.date = r'.date ∧ r.title.data ≤ r'.title.data)) := by
  refine ⟨by decide, by decide⟩

/-! ## C2 — idempotence -/

/-- C2: with the same source data and day, a second synchronization run
over the ledger left by the first appends zero rows; and no run ever
appends a record whose date is at or below the watermark it read. -/
theorem claim_C2 (cfg : Config) (src : Source) (today : ℤ)
    (ledger0 : List Record) (hrb : cfg.rebuild = false) :
    (runSync cfg src today (runSync cfg src today ledger0).ledger).appended = [] ∧
    (∀ r ∈ (runSync cfg src today ledger0).appended,
      ∀ w, get_max_date ledger0 = some w → w < r.date) := by
  have hpart2 : ∀ r ∈ (runSync cfg src today ledger0).appended,
      ∀ w, get_max_date ledger0 = some w → w < r.date := by
    rcases runSync_trichotomy cfg src today ledger0 with ⟨h, heq⟩ | heq |
      ⟨h, hok, heq⟩
    · rw [heq]; simp
    · rw [heq]; simp
    · rw [heq]
      intro r hr w hw
      obtain ⟨d, hd, hrd⟩ := List.mem_flatMap.mp hr
      have hdate := dayRows_date r hrd
      have hb := (mem_date_range.mp hd).1
      have hst : w + 1 ≤ startDate cfg ledger0 := by
        rw [startDate_some hrb hw]
        exact le_max_left _ _
      omega
  refine ⟨?_, hpart2⟩
  rcases runSync_trichotomy cfg src today ledger0 with ⟨h, heq⟩ | heq |
    ⟨h, hok, heq⟩
  · rw [heq, hrb]
    simp only [Bool.false_eq_true, if_false]
    rw [heq]
  · rw [heq, hrb]
    simp only [Bool.false_eq_true, if_false]
    rw [heq]
  · rw [heq, hrb]
    simp only [Bool.false_eq_true, if_false]
    set window := date_range (startDate cfg ledger0) (min cfg.yearEnd today)
      with hwin
    set rows := window.flatMap (dayRows src cfg.maxRetries) with hrows
    by_cases hnil : rows = []
    · rw [hnil, List.append_nil, heq, hrb]
      simp only [Bool.false_eq_true, if_false]
      exact hnil
    · cases hlast : rows.getLast? with
      | none => exact absurd (List.getLast?_eq_none_iff.mp hlast) hnil
      | some rlast =>
        have hmax : get_max_date (ledger0 ++ rows) = some rlast.date := by
          unfold get_max_date
          rw [List.getLast?_append, hlast, Option.or_some]
          rfl
        have hkey := flatMap_getLast_date (date_range_pairwise _ _)
          (fun d _ => dayRows_date) (hrows ▸ hlast)
        have hb := mem_date_range.mp hkey.1
        have hys := startDate_ge cfg ledger0
        have hst2 : startDate cfg (ledger0 ++ rows) = rlast.date + 1 := by
          rw [startDate_some hrb hmax]
          exact max_eq_left (by omega)
        by_cases h2 : startDate cfg (ledger0 ++ rows) > min cfg.yearEnd today
        · rw [runSync_early h2]
        · have hok2 : ∀ d ∈ date_range (startDate cfg (ledger0 ++ rows))
              (min cfg.yearEnd today),
              fetchRows src cfg.maxRetries d ≠ none := by
            intro d hd
            have hbd := mem_date_range.mp hd
            rw [hst2] at hbd
            exact hok d (mem_date_range.mpr ⟨by omega, hbd.2⟩)
          rw [runSync_ok h2 hok2]
          simp only
          apply List.flatMap_eq_nil_iff.mpr
          intro d hd
          have hbd := mem_date_range.mp hd
          rw [hst2] at hbd
          exact hkey.2 d (mem_date_range.mpr ⟨by omega, hbd.2⟩) (by omega)

/-- Witness for C2 at the one-day window and the concrete source: the
second run appends nothing. -/
theorem claim_C2_witness :
    cfgOneDay.rebuild = false ∧
    (runSync cfgOneDay srcBA 0 (runSync cfgOneDay srcBA 0 []).ledger).appended
      = [] :=
  ⟨rfl, (claim_C2 cfgOneDay srcBA 0 [] rfl).1⟩

/-! ## C7 — leaderboard recomputation -/

/-- C7 (amended): whenever a run publishes a leaderboard, what it publishes
is the full recomputation over the entire ledger contents after the append
(never an incremental update of the previous board); but a run that has
nothing to scrape — or aborts on a fetch failure — ends without
republishing. -/
theorem claim_C7_amended (cfg : Config) (src : Source) (today : ℤ)
    (ledger0 : List Record) (b : Board)
    (h : (runSync cfg src today ledger0).published = some b) :
    b = write_leaderboard (runSync cfg src today ledger0).ledger := by
  rcases runSync_trichotomy cfg src today ledger0 with ⟨_, heq⟩ | heq |
    ⟨_, _, heq⟩
  · rw [heq] at h
    exact absurd h (by simp)
  · rw [heq] at h
    exact absurd h (by simp)
  · rw [heq] at h ⊢
    exact (Option.some_inj.mp h).symm

/-- The board the concrete one-day run publishes. -/
def bBA : Board := .board "B" 5 [⟨1, "B", 5⟩, ⟨2, "A", 3⟩]

/-- Witness for C7 (amended) at the concrete one-day run. -/
theorem claim_C7_amended_witness :
    (runSync cfgOneDay srcBA 0 []).published = some bBA ∧
    bBA = write_leaderboard (runSync cfgOneDay srcBA 0 []).ledger :=
  ⟨by decide, claim_C7_amended cfgOneDay srcBA 0 [] bBA (by decide)⟩

/-- C7, counterexample: a run whose watermark already covers the window
(`start > effective_end`) returns before `write_leaderboard` is ever
called, so not *every* run republishes the leaderboard. -/
theorem claim_C7_counterexample :
    (runSync cfgSixDays srcBA 5 [rX]).published = none ∧
    (runSync cfgSixDays srcBA 5 [rX]).errored = false := by
  refine ⟨by decide, by decide⟩

/-! ## C9 — all-or-nothing on fetch failure -/

/-- C9: every date of the window is scraped before anything is appended, so
a date that exhausts its retries aborts the run with the ledger unchanged,
zero rows appended and nothing published. -/
theorem claim_C9 (cfg : Config) (src : Source) (today : ℤ)
    (ledger0 : List Record) (d : ℤ)
    (hrb : cfg.rebuild = false)
    (hd : d ∈ date_range (startDate cfg ledger0) (min cfg.yearEnd today))
    (hfail : fetchRows src cfg.maxRetries d = none) :
    (runSync cfg src today ledger0).errored = true ∧
    (runSync cfg src today ledger0).ledger = ledger0 ∧
    (runSync cfg src today ledger0).appended = [] ∧
    (runSync cfg src today ledger0).published = none := by
  rw [runSync_error hd hfail]
  simp [hrb]

/-- Witness for C9: the one-day window over the always-HTTP-500 source. -/
theorem claim_C9_witness :
    (runSync cfgOneDay srcHTTPFail 0 []).errored = true ∧
    (runSync cfgOneDay srcHTTPFail 0 []).ledger = [] ∧
    (runSync cfgOneDay srcHTTPFail 0 []).appended = [] ∧
    (runSync cfgOneDay srcHTTPFail 0 []).published = none :=
  claim_C9 cfgOneDay srcHTTPFail 0 [] 0 rfl (by decide) (by decide)

/-! ## C10 — the scrape window never leaves the year or the present -/

/-- C10: no fetched date exceeds the current day or the end of the target
year (the window ends at their minimum), and when the computed start
exceeds that end the run returns at once: nothing fetched, nothing
appended, nothing published, no error. -/
theorem claim_C10 (cfg : Config) (src : Source) (today : ℤ)
    (ledger0 : List Record) :
    (∀ d ∈ (runSync cfg src today ledger0).fetched,
      d ≤ cfg.yearEnd ∧ d ≤ today) ∧
    (startDate cfg ledger0 > min cfg.yearEnd today →
      (runSync cfg src today ledger0).fetched = [] ∧
      (runSync cfg src today ledger0).appended = [] ∧
      (runSync cfg src today ledger0).published = none ∧
      (runSync cfg src today ledger0).errored = false) := by
  have hmin1 := min_le_left cfg.yearEnd today
  have hmin2 := min_le_right cfg.yearEnd today
  constructor
  · rcases runSync_trichotomy cfg src today ledger0 with ⟨h, heq⟩ | heq |
      ⟨h, hok, heq⟩
    · rw [heq]
      simp
    · rw [heq]
      intro d hd
      have hmem : d ∈ date_range (startDate cfg ledger0)
          (min cfg.yearEnd today) := scrapeGo_visited_subset d hd
      have hb := mem_date_range.mp hmem
      omega
    · rw [heq]
      intro d hd
      have hb := mem_date_range.mp hd
      omega
  · intro h
    rw [runSync_early h]
    exact ⟨rfl, rfl, rfl, rfl⟩

/-- Witness for C10: the six-day window whose watermark already reaches the
effective end. -/
theorem claim_C10_witness :
    startDate cfgSixDays [rX] > min cfgSixDays.yearEnd 5 ∧
    (runSync cfgSixDays srcBA 5 [rX]).fetched = [] ∧
    (runSync cfgSixDays srcBA 5 [rX]).appended = [] ∧
    (runSync cfgSixDays srcBA 5 [rX]).published = none :=
  have h := (claim_C10 cfgSixDays srcBA 5 [rX]).2 (by decide)
  ⟨by decide, h.1, h.2.1, h.2.2.1⟩

end BoxOffice
